import Mathlib

/-!
Verification of the tricon pixel/triangle grid editor (`src/main.ts`).

The TypeScript source is shallowly embedded: each relevant function of the
source is translated into a computable Lean definition operating on lists,
integers and rationals.  JavaScript numbers appearing in the geometry
resolver are modelled by exact rationals (the claims under scrutiny concern
the comparison/threshold structure of the code, which is expressed by the
same strict comparisons here); JavaScript exceptions are modelled by
`Except`.
-/

namespace Tricon

/-- Source `type PixelState = 'clear' | 'black' | 'top-left' | 'top-right' |
'bottom-left' | 'bottom-right'` from `main.ts`. -/
inductive PixelState where
  | clear
  | black
  | topLeft
  | topRight
  | bottomLeft
  | bottomRight
deriving DecidableEq, Repr

/-- Source `PixelState[][]`: a grid is a list of rows of cell states. -/
abbrev Grid := List (List PixelState)

/-- Source `createEmptyGrid(size)` from `main.ts`: a `size × size` grid of `'clear'`. -/
def createEmptyGrid (size : ℕ) : Grid :=
  List.replicate size (List.replicate size PixelState.clear)

/-- The per-pixel inversion table inside `invertPixels` of `main.ts`:
`'clear' ↦ 'black'`, `'black' ↦ 'clear'`, and the four triangle corners are
point-reflected through the cell center. -/
def invertPixel : PixelState → PixelState
  | PixelState.clear => PixelState.black
  | PixelState.black => PixelState.clear
  | PixelState.topLeft => PixelState.bottomRight
  | PixelState.topRight => PixelState.bottomLeft
  | PixelState.bottomLeft => PixelState.topRight
  | PixelState.bottomRight => PixelState.topLeft

/-- Source `invertPixels` of `main.ts` (the grid transformation it applies via
`this.grid.map(row => row.map(pixel => ...))`). -/
def invertPixels (g : Grid) : Grid :=
  g.map (fun row => row.map invertPixel)

/-- The cell-to-character code of `exportAsJSON` in `main.ts`:
`'top-left' ↦ 's'`, `'top-right' ↦ 'a'`, `'bottom-left' ↦ 'w'`,
`'bottom-right' ↦ 'q'`, `'black' ↦ 'z'`, `'clear' ↦ 'x'`. -/
def pixelToChar : PixelState → Char
  | PixelState.topLeft => 's'
  | PixelState.topRight => 'a'
  | PixelState.bottomLeft => 'w'
  | PixelState.bottomRight => 'q'
  | PixelState.black => 'z'
  | PixelState.clear => 'x'

/-- The `data` string built by `exportAsJSON` in `main.ts`:
`grid.map(row => row.map(pixelToChar).join('')).join('')`, i.e. one
character per cell, row-major.  Modelled as the list of characters. -/
def exportData (g : Grid) : List Char :=
  (g.map (fun row => row.map pixelToChar)).flatten

/-- The same `data` payload as a Lean `String`. -/
def exportDataString (g : Grid) : String :=
  String.mk (exportData g)

/-- The character-to-cell switch of the version-2 loader in
`handleFileDrop` of `main.ts`.  The loaded grid is pre-filled with
`'clear'` and the `switch` has no default case, so any unrecognized
character leaves the cell `'clear'`. -/
def charToPixel (c : Char) : PixelState :=
  if c = 's' then PixelState.topLeft
  else if c = 'a' then PixelState.topRight
  else if c = 'w' then PixelState.bottomLeft
  else if c = 'q' then PixelState.bottomRight
  else if c = 'z' then PixelState.black
  else if c = 'x' then PixelState.clear
  else PixelState.clear

/-- The grid built by the version-2 branch of `handleFileDrop` in
`main.ts`: a `size × size` grid whose cell `(i, j)` is decoded from
character `i*size + j` of the data string (reading past the end of the
string leaves the pre-filled `'clear'`). -/
def loadGridV2 (data : List Char) (size : ℕ) : Grid :=
  (List.range size).map (fun i =>
    (List.range size).map (fun j =>
      match data[i * size + j]? with
      | some c => charToPixel c
      | none => PixelState.clear))

/-- The parsed JSON payload consumed by `handleFileDrop` in `main.ts`:
version 1 carries a grid directly, version 2 a character string, and any
other version tag (including a missing one) is the `other` case. -/
inductive LoadedData where
  | v1 (grid : Grid)
  | v2 (data : List Char)
  | other (version : ℤ)

/-- The body of the `try` block in `handleFileDrop` of `main.ts` that
computes `(newSize, loadedGrid)`, with the two thrown `Error`s modelled as
`Except.error`.  For version 2 the dimension is `Math.sqrt(data.length)`,
accepted only when it is an integer. -/
def parseLoadedData : LoadedData → Except String (ℕ × Grid)
  | LoadedData.v1 g => Except.ok (g.length, g)
  | LoadedData.v2 data =>
      let size := Nat.sqrt data.length
      if size * size = data.length then
        Except.ok (size, loadGridV2 data size)
      else
        Except.error "Data length is not a perfect square for version 2 JSON"
  | LoadedData.other _ => Except.error "Unsupported file version"

/-- The part of the application state that the JSON branch of
`handleFileDrop` touches. -/
structure DropSt where
  gridSize : ℕ
  grid : Grid
deriving DecidableEq, Repr

/-- The JSON branch of `handleFileDrop` in `main.ts`: on success the grid
size is updated when `newSize > 0` and the grid replaced; a thrown error is
caught (`console.error`) and the state left untouched. -/
def handleFileDrop (d : LoadedData) (st : DropSt) : DropSt :=
  match parseLoadedData d with
  | Except.ok (newSize, g) =>
      let st1 := if 0 < newSize then { st with gridSize := newSize } else st
      { st1 with grid := g }
  | Except.error _ => st

/-- Reading cell `(i, j)` of a grid, with `'clear'` for anything missing. -/
def getCell (g : Grid) (i j : ℕ) : PixelState :=
  (g.getD i []).getD j PixelState.clear

/-- Source `resizeGrid(newSize)` of `main.ts` restricted to the grid it builds:
returns the old grid unchanged when `newSize < 1` (the early `return`);
otherwise a fresh `'clear'` grid of the new size whose overlap
`i < min(size, oldGrid.length)`, `j < min(size, oldGrid[i].length)` is
copied from the old grid. -/
def resizeGrid (newSize : ℤ) (old : Grid) : Grid :=
  if newSize < 1 then old
  else
    let size := newSize.toNat
    (List.range size).map (fun i =>
      (List.range size).map (fun j =>
        if i < old.length ∧ j < (old.getD i []).length then
          (old.getD i []).getD j PixelState.clear
        else PixelState.clear))

/-- A JavaScript array cell as seen by `GridManager`: `none` models a hole
(`undefined`) created by writing past the end of a row array. -/
abbrev JsRow := List (Option PixelState)

/-- The grid as a JavaScript array of row arrays. -/
abbrev JsGrid := List JsRow

/-- JavaScript element assignment `rowArr[i] = v` on an array:
a negative `i` sets a non-index property (the array elements are
untouched), an in-range `i` overwrites, and an `i` past the end grows the
array with holes. -/
def jsArrayWrite (rowArr : JsRow) (i : ℤ) (v : PixelState) : JsRow :=
  if i < 0 then rowArr
  else if i.toNat < rowArr.length then rowArr.set i.toNat (some v)
  else rowArr ++ List.replicate (i.toNat - rowArr.length) none ++ [some v]

/-- Source `GridManager.updatePixel(row, col, state)` from `main.ts`: copies the
grid (`this.grid.map(row => [...row])`) and performs
`newGrid[row][col] = state`.  There is no bounds check: when `row` is out
of range, `newGrid[row]` is `undefined` and the element assignment throws
a `TypeError`, modelled as `Except.error`. -/
def updatePixel (g : JsGrid) (row col : ℤ) (state : PixelState) :
    Except String JsGrid :=
  if 0 ≤ row ∧ row.toNat < g.length then
    Except.ok (g.set row.toNat (jsArrayWrite (g.getD row.toNat []) col state))
  else
    Except.error "TypeError: cannot set properties of undefined"

/-- A concrete in-bounds 3×3 JS grid (all cells `'clear'`, no holes). -/
def jsGrid3 : JsGrid :=
  List.replicate 3 (List.replicate 3 (some PixelState.clear))

/-- The history-related state of the `App` class in `main.ts`:
`this.grid`, `this.history` and `this.historyIndex`. -/
structure AppSt where
  grid : Grid
  history : List Grid
  historyIndex : ℤ
deriving DecidableEq, Repr

/-- JavaScript `l.slice(0, e)`: a negative `e` counts from the end. -/
def jsSliceTo {α : Type} (l : List α) (e : ℤ) : List α :=
  if e < 0 then l.take (l.length + e).toNat else l.take e.toNat

/-- JavaScript `l.slice(s)`: a negative `s` counts from the end. -/
def jsSliceFrom {α : Type} (l : List α) (s : ℤ) : List α :=
  if s < 0 then l.drop (l.length + s).toNat else l.drop s.toNat

/-- Source `saveToHistory` from `main.ts`.  The source compares
`JSON.stringify(this.grid)` with `JSON.stringify(this.history[idx])`
(`undefined` when `idx < 0` or out of range); serialization is injective
on grids, so the comparison is modelled by `Option Grid` equality.  On a
change it truncates the redo branch (`slice(0, idx+1)`), appends the
snapshot, increments the index, and on overflow keeps `slice(-100)` with
the index re-pointed at the last entry. -/
def saveToHistory (st : AppSt) : AppSt :=
  if some st.grid =
      (if 0 ≤ st.historyIndex then st.history[st.historyIndex.toNat]? else none)
  then st
  else
    if 100 < (jsSliceTo st.history (st.historyIndex + 1) ++ [st.grid]).length then
      { st with
          history :=
            jsSliceFrom (jsSliceTo st.history (st.historyIndex + 1) ++ [st.grid]) (-100),
          historyIndex :=
            (jsSliceFrom (jsSliceTo st.history (st.historyIndex + 1) ++ [st.grid]) (-100)).length - 1 }
    else
      { st with
          history := jsSliceTo st.history (st.historyIndex + 1) ++ [st.grid],
          historyIndex := st.historyIndex + 1 }

/-- Source `undo` from `main.ts`: only when the index is positive, decrement it
and restore that snapshot into the grid. -/
def undo (st : AppSt) : AppSt :=
  if 0 < st.historyIndex then
    { st with
        historyIndex := st.historyIndex - 1,
        grid := st.history.getD (st.historyIndex - 1).toNat [] }
  else st

/-- A sequence of pushes: each element is drawn into the grid and then
committed with `saveToHistory`. -/
def pushAll (gs : List Grid) (st : AppSt) : AppSt :=
  gs.foldl (fun s g => saveToHistory { s with grid := g }) st

/-- The concrete 3×3 grid of the spec scenario: all `Empty`, then
`(0,0) ↦ Filled` and `(1,1) ↦ Triangle(TopLeft)`. -/
def exampleGrid3 : Grid :=
  [[PixelState.black, PixelState.clear, PixelState.clear],
   [PixelState.clear, PixelState.topLeft, PixelState.clear],
   [PixelState.clear, PixelState.clear, PixelState.clear]]

/-- A concrete 5×5 grid used to witness the resize claim. -/
def exampleGrid5 : Grid :=
  [[PixelState.black, PixelState.clear, PixelState.topLeft, PixelState.clear, PixelState.clear],
   [PixelState.clear, PixelState.topRight, PixelState.clear, PixelState.clear, PixelState.black],
   [PixelState.bottomLeft, PixelState.clear, PixelState.black, PixelState.clear, PixelState.clear],
   [PixelState.clear, PixelState.clear, PixelState.clear, PixelState.bottomRight, PixelState.clear],
   [PixelState.black, PixelState.clear, PixelState.clear, PixelState.clear, PixelState.black]]

/-- A concrete well-formed one-entry history state whose stored entry
matches the current grid. -/
def histSt0 : AppSt :=
  { grid := [[PixelState.black]],
    history := [[[PixelState.black]]],
    historyIndex := 0 }

/-- A concrete full-capacity state: 101 stored entries, the index at the
last one, and a new distinct grid about to be pushed. -/
def histStBig : AppSt :=
  { grid := [[PixelState.topLeft]],
    history := List.replicate 101 [[PixelState.clear]],
    historyIndex := 100 }

/-- Source `type HoverRegion` restricted to the five values `getMousePosition`
can produce: the four triangle corners and `'center'`. -/
inductive HoverRegion where
  | topLeft
  | topRight
  | bottomLeft
  | bottomRight
  | center
deriving DecidableEq, Repr

/-- Truncation of a rational toward zero, as JavaScript division
truncates inside the `%` operator. -/
def ratTrunc (q : ℚ) : ℤ :=
  if 0 ≤ q then ⌊q⌋ else ⌈q⌉

/-- JavaScript `a % b` on numbers: the remainder left after subtracting
the truncated quotient. -/
def jsMod (a b : ℚ) : ℚ :=
  a - b * ratTrunc (a / b)

/-- Source `getMousePosition` from `main.ts`, with the pointer offset `(x, y)`
and the cell size modelled as exact rationals:
`col = Math.floor(x / pixelSize)`, `row = Math.floor(y / pixelSize)`,
`None` outside `[0, gridSize)`, otherwise the region classified from the
fractional in-cell position `cellX = (x % pixelSize) / pixelSize`,
`cellY = (y % pixelSize) / pixelSize` by the source's strict comparisons
against 0.5 and 1.5. -/
def getMousePosition (x y pixelSize : ℚ) (gridSize : ℕ) :
    Option (ℤ × ℤ × HoverRegion) :=
  if ⌊x / pixelSize⌋ < 0 ∨ (gridSize : ℤ) ≤ ⌊x / pixelSize⌋ ∨
      ⌊y / pixelSize⌋ < 0 ∨ (gridSize : ℤ) ≤ ⌊y / pixelSize⌋ then
    none
  else
    some (⌊y / pixelSize⌋, ⌊x / pixelSize⌋,
      if jsMod x pixelSize / pixelSize + jsMod y pixelSize / pixelSize < 1/2 then
        HoverRegion.topLeft
      else if 3/2 < jsMod x pixelSize / pixelSize + jsMod y pixelSize / pixelSize then
        HoverRegion.bottomRight
      else if 1/2 < jsMod x pixelSize / pixelSize - jsMod y pixelSize / pixelSize then
        HoverRegion.topRight
      else if 1/2 < jsMod y pixelSize / pixelSize - jsMod x pixelSize / pixelSize then
        HoverRegion.bottomLeft
      else HoverRegion.center)

/-- The `while (true)` loop of `bresenhamLine` in `main.ts`, embedded with
a fuel parameter (the loop terminates; the fuel chosen in `bresenhamLine`
is proved sufficient).  Each iteration first yields `(x0, y0)` (the
`callback`), breaks when the end point is reached, and otherwise steps
`x0` and/or `y0` guarded by `e2 = 2*err` against `-dy` and `dx`. -/
def bresenhamGo (x1 y1 dx dy sx sy : ℤ) : ℕ → ℤ → ℤ → ℤ → List (ℤ × ℤ)
  | 0, _, _, _ => []
  | n + 1, x0, y0, err =>
      (x0, y0) ::
        (if x0 = x1 ∧ y0 = y1 then []
         else
           bresenhamGo x1 y1 dx dy sx sy n
             (if -dy < 2 * err then x0 + sx else x0)
             (if 2 * err < dx then y0 + sy else y0)
             ((if -dy < 2 * err then err - dy else err) +
              (if 2 * err < dx then dx else 0)))

/-- Source `bresenhamLine(x0, y0, x1, y1, callback)` from `main.ts`, as the list
of cells passed to the callback: `dx = |x1-x0|`, `dy = |y1-y0|`,
`sx/sy = ±1`, initial `err = dx - dy`. -/
def bresenhamLine (x0 y0 x1 y1 : ℤ) : List (ℤ × ℤ) :=
  bresenhamGo x1 y1 |x1 - x0| |y1 - y0|
    (if x0 < x1 then 1 else -1) (if y0 < y1 then 1 else -1)
    ((|x1 - x0| + |y1 - y0|).toNat + 1) x0 y0 (|x1 - x0| - |y1 - y0|)

end Tricon

namespace Tricon

/-- Helper: a map over a list whose function is the identity on every
member leaves the list unchanged. -/
theorem list_map_id_of_mem {α : Type} (l : List α) (f : α → α)
    (h : ∀ a ∈ l, f a = a) : l.map f = l := by
  induction l with
  | nil => rfl
  | cons x xs ih =>
      simp only [List.map_cons, h x (List.mem_cons_self x xs)]
      rw [ih (fun a ha => h a (List.mem_cons_of_mem x ha))]

theorem invertPixel_invertPixel (p : PixelState) :
    invertPixel (invertPixel p) = p := by
  cases p <;> rfl

/-- C6: the invert operation is an involution: applying `invertPixels`
twice returns the original grid, and one application swaps `'black'` with
`'clear'` and point-reflects each triangle corner through the cell center. -/
theorem invert_involution (g : Grid) :
    invertPixels (invertPixels g) = g ∧
    invertPixel PixelState.black = PixelState.clear ∧
    invertPixel PixelState.clear = PixelState.black ∧
    invertPixel PixelState.topLeft = PixelState.bottomRight ∧
    invertPixel PixelState.bottomRight = PixelState.topLeft ∧
    invertPixel PixelState.topRight = PixelState.bottomLeft ∧
    invertPixel PixelState.bottomLeft = PixelState.topRight := by
  refine ⟨?_, rfl, rfl, rfl, rfl, rfl, rfl⟩
  unfold invertPixels
  rw [List.map_map]
  apply list_map_id_of_mem
  intro row _
  simp only [Function.comp]
  rw [List.map_map]
  apply list_map_id_of_mem
  intro p _
  exact invertPixel_invertPixel p

/-- Helper: a map whose function is constant on every member is a
`replicate`. -/
theorem list_map_const_of_mem {α β : Type} (l : List α) (f : α → β) (c : β)
    (h : ∀ a ∈ l, f a = c) : l.map f = List.replicate l.length c := by
  induction l with
  | nil => rfl
  | cons x xs ih =>
      simp only [List.map_cons, List.length_cons, List.replicate_succ,
        h x (List.mem_cons_self x xs)]
      rw [ih (fun a ha => h a (List.mem_cons_of_mem x ha))]

/-- Helper: the exported data string of an `N × N` grid has `N * N`
characters. -/
theorem exportData_length (N : ℕ) (g : Grid)
    (hlen : g.length = N) (hrow : ∀ r ∈ g, r.length = N) :
    (exportData g).length = N * N := by
  unfold exportData
  rw [List.length_flatten, List.map_map]
  rw [list_map_const_of_mem g _ N (by
    intro r hr
    simp only [Function.comp, List.length_map]
    exact hrow r hr)]
  simp [hlen, List.sum_replicate, Nat.smul_one_eq_cast]

/-- Helper: indexing into the row-major flattening of a list of rows of
uniform length `N`. -/
theorem flatten_getElem_rowmajor {α : Type} (N : ℕ) (rows : List (List α))
    (h : ∀ r ∈ rows, r.length = N) (i j : ℕ)
    (hi : i < rows.length) (hj : j < N) :
    rows.flatten[i * N + j]? = (rows.getD i [])[j]? := by
  induction rows generalizing i with
  | nil => simp at hi
  | cons r rs ih =>
      have hrN : r.length = N := h r (List.mem_cons_self r rs)
      cases i with
      | zero =>
          have hjr : j < r.length := by rw [hrN]; exact hj
          simp only [Nat.zero_mul, Nat.zero_add, List.flatten_cons, List.getD]
          rw [List.getElem?_append_left hjr]
          rfl
      | succ k =>
          have hk : k < rs.length := by simpa using hi
          have harith : (k + 1) * N + j = r.length + (k * N + j) := by
            rw [hrN]; ring
          simp only [List.flatten_cons, harith]
          rw [List.getElem?_append_right (Nat.le_add_right _ _)]
          simp only [Nat.add_sub_cancel_left]
          rw [ih (fun a ha => h a (List.mem_cons_of_mem r ha)) k hk]
          rfl

theorem charToPixel_pixelToChar (p : PixelState) :
    charToPixel (pixelToChar p) = p := by
  cases p <;> decide

/-- Helper: the version-2 loader rebuilds exactly the exported grid. -/
theorem loadGridV2_exportData (N : ℕ) (g : Grid)
    (hlen : g.length = N) (hrow : ∀ r ∈ g, r.length = N) :
    loadGridV2 (exportData g) N = g := by
  have hrowsN : ∀ r ∈ g.map (fun row => row.map pixelToChar), r.length = N := by
    intro r hr
    obtain ⟨row, hmem, rfl⟩ := List.mem_map.mp hr
    simpa using hrow row hmem
  have hrowslen : (g.map (fun row => row.map pixelToChar)).length = N := by
    simpa using hlen
  apply List.ext_getElem
  · simp [loadGridV2, hlen]
  intro i hi1 hi2
  have hiN : i < N := by simpa [loadGridV2] using hi1
  have hgi : (g.getD i []).length = N := by
    rw [List.getD_eq_getElem?_getD, List.getElem?_eq_getElem hi2]
    exact hrow _ (List.getElem_mem hi2)
  simp only [loadGridV2, List.getElem_map, List.getElem_range]
  apply List.ext_getElem
  · simp only [List.length_map, List.length_range]
    exact (hrow _ (List.getElem_mem hi2)).symm
  intro j hj1 hj2
  have hjN : j < N := by simpa using hj1
  have hflat : (exportData g)[i * N + j]? =
      ((g.map (fun row => row.map pixelToChar)).getD i [])[j]? := by
    exact flatten_getElem_rowmajor N _ hrowsN i j (by rw [hrowslen]; exact hiN) hjN
  have hrows_getD : (g.map (fun row => row.map pixelToChar)).getD i [] =
      (g.getD i []).map pixelToChar := by
    rw [List.getD_eq_getElem?_getD, List.getD_eq_getElem?_getD]
    rw [List.getElem?_map, List.getElem?_eq_getElem hi2]
    rfl
  have hjlt : j < (g.getD i []).length := by rw [hgi]; exact hjN
  have hchar : (exportData g)[i * N + j]? =
      some (pixelToChar ((g.getD i []).get ⟨j, hjlt⟩)) := by
    rw [hflat, hrows_getD, List.getElem?_map, List.getElem?_eq_getElem hjlt]
    rfl
  have hgetD : (g.getD i []).get ⟨j, hjlt⟩ = g[i][j] := by
    have hrowi : g.getD i [] = g[i] := by
      rw [List.getD_eq_getElem?_getD, List.getElem?_eq_getElem hi2]
      rfl
    rw [List.get_eq_getElem]
    congr 1
  rw [List.getElem_map, List.getElem_range, hchar]
  exact (charToPixel_pixelToChar _).trans hgetD

/-- C5: exporting an `N × N` grid to the compact version-2 data format
yields a string of `N * N` characters, re-loading it through the version-2
loader reconstructs `(N, original grid)`, and the spec's concrete 3×3
scenario exports to `"zxxxsxxxx"`. -/
theorem export_load_roundtrip (N : ℕ) (g : Grid)
    (hlen : g.length = N) (hrow : ∀ r ∈ g, r.length = N) :
    (exportData g).length = N * N ∧
    parseLoadedData (LoadedData.v2 (exportData g)) = Except.ok (N, g) ∧
    exportDataString exampleGrid3 = "zxxxsxxxx" := by
  have hL := exportData_length N g hlen hrow
  refine ⟨hL, ?_, by decide⟩
  simp only [parseLoadedData, hL, Nat.sqrt_eq, eq_self_iff_true, if_true]
  rw [loadGridV2_exportData N g hlen hrow]

/-- Witness for C5 at the spec's 3×3 scenario grid. -/
theorem export_load_roundtrip_witness :
    exampleGrid3.length = 3 ∧ (∀ r ∈ exampleGrid3, r.length = 3) ∧
    ((exportData exampleGrid3).length = 3 * 3 ∧
     parseLoadedData (LoadedData.v2 (exportData exampleGrid3)) =
       Except.ok (3, exampleGrid3) ∧
     exportDataString exampleGrid3 = "zxxxsxxxx") :=
  ⟨by decide, by decide,
    export_load_roundtrip 3 exampleGrid3 (by decide) (by decide)⟩

/-- C10: loading a version-2 payload whose length is a perfect square
succeeds even when it holds characters outside `{s,a,w,q,z,x}`, and every
position holding such a character decodes to `'clear'` (the `switch` in
`handleFileDrop` has no default case, so the pre-filled `'clear'`
survives). -/
theorem load_v2_unrecognized_char (data : List Char) (N i j : ℕ) (c : Char)
    (hlen : data.length = N * N) (hi : i < N) (hj : j < N)
    (hc : data[i * N + j]? = some c)
    (hvalid : c ∉ (['s', 'a', 'w', 'q', 'z', 'x'] : List Char)) :
    parseLoadedData (LoadedData.v2 data) = Except.ok (N, loadGridV2 data N) ∧
    getCell (loadGridV2 data N) i j = PixelState.clear := by
  constructor
  · simp [parseLoadedData, hlen, Nat.sqrt_eq]
  · simp only [List.mem_cons, List.not_mem_nil, or_false, not_or] at hvalid
    obtain ⟨h1, h2, h3, h4, h5, h6⟩ := hvalid
    unfold getCell
    have hi' : i < (loadGridV2 data N).length := by simp [loadGridV2, hi]
    rw [List.getD_eq_getElem?_getD (loadGridV2 data N) i,
      List.getElem?_eq_getElem hi']
    simp only [loadGridV2, List.getElem_map, List.getElem_range, Option.getD_some]
    have hj' : j < ((List.range N).map (fun j =>
        match data[i * N + j]? with
        | some c => charToPixel c
        | none => PixelState.clear)).length := by simp [hj]
    rw [List.getD_eq_getElem?_getD _ j, List.getElem?_eq_getElem hj']
    simp only [List.getElem_map, List.getElem_range, Option.getD_some]
    rw [hc]
    simp [charToPixel, h1, h2, h3, h4, h5, h6]

/-- Witness for C10: a length-4 payload with the unrecognized character
`'b'` at row-major position `(0, 1)` of the decoded 2×2 grid. -/
theorem load_v2_unrecognized_char_witness :
    ("zbxz".data.length = 2 * 2 ∧ (0 : ℕ) < 2 ∧ (1 : ℕ) < 2 ∧
      "zbxz".data[0 * 2 + 1]? = some 'b' ∧
      'b' ∉ (['s', 'a', 'w', 'q', 'z', 'x'] : List Char)) ∧
    (parseLoadedData (LoadedData.v2 "zbxz".data) =
        Except.ok (2, loadGridV2 "zbxz".data 2) ∧
      getCell (loadGridV2 "zbxz".data 2) 0 1 = PixelState.clear) :=
  ⟨⟨by decide, by decide, by decide, by decide, by decide⟩,
    load_v2_unrecognized_char "zbxz".data 2 0 1 'b'
      (by decide) (by decide) (by decide) (by decide) (by decide)⟩

/-- Helper: the cell of a resized grid, for coordinates inside the new
bounds, is the old cell on the overlap and `'clear'` elsewhere. -/
theorem resizeGrid_getCell (K : ℕ) (g : Grid) (hK : 1 ≤ K) (i j : ℕ)
    (hi : i < K) (hj : j < K) :
    getCell (resizeGrid (K : ℤ) g) i j =
      if i < g.length ∧ j < (g.getD i []).length then
        (g.getD i []).getD j PixelState.clear
      else PixelState.clear := by
  have hKpos : ¬((K : ℤ) < 1) := by exact_mod_cast not_lt.mpr hK
  unfold resizeGrid getCell
  rw [if_neg hKpos]
  have htn : (K : ℤ).toNat = K := Int.toNat_natCast K
  simp only [htn]
  have hi' : i < ((List.range K).map (fun i =>
      (List.range K).map (fun j =>
        if i < g.length ∧ j < (g.getD i []).length then
          (g.getD i []).getD j PixelState.clear
        else PixelState.clear))).length := by simp [hi]
  rw [List.getD_eq_getElem?_getD ((List.range K).map _) i,
    List.getElem?_eq_getElem hi']
  simp only [List.getElem_map, List.getElem_range, Option.getD_some]
  have hj' : j < ((List.range K).map (fun j =>
      if i < g.length ∧ j < (g.getD i []).length then
        (g.getD i []).getD j PixelState.clear
      else PixelState.clear)).length := by simp [hj]
  rw [List.getD_eq_getElem?_getD ((List.range K).map _) j,
    List.getElem?_eq_getElem hj']
  simp only [List.getElem_map, List.getElem_range, Option.getD_some]

/-- C9: resizing an `M × M` grid to `K × K` (`K ≥ 1`) yields a `K × K`
grid that keeps every cell of the overlapping top-left
`min(M,K) × min(M,K)` region and fills every other cell `'clear'`. -/
theorem resize_preserves_overlap (M K : ℕ) (g : Grid) (hK : 1 ≤ K)
    (hlen : g.length = M) (hrow : ∀ r ∈ g, r.length = M) :
    (resizeGrid (K : ℤ) g).length = K ∧
    (∀ r ∈ resizeGrid (K : ℤ) g, r.length = K) ∧
    (∀ i j, i < min M K → j < min M K →
      getCell (resizeGrid (K : ℤ) g) i j = getCell g i j) ∧
    (∀ i j, i < K → j < K → ¬(i < min M K ∧ j < min M K) →
      getCell (resizeGrid (K : ℤ) g) i j = PixelState.clear) := by
  have hKpos : ¬((K : ℤ) < 1) := by exact_mod_cast not_lt.mpr hK
  have hrowD : ∀ i, i < M → (g.getD i []).length = M := by
    intro i hi
    have hi' : i < g.length := by rw [hlen]; exact hi
    rw [List.getD_eq_getElem?_getD, List.getElem?_eq_getElem hi']
    exact hrow _ (List.getElem_mem hi')
  refine ⟨?_, ?_, ?_, ?_⟩
  · unfold resizeGrid
    rw [if_neg hKpos]
    simp
  · intro r hr
    simp only [resizeGrid, if_neg hKpos, Int.toNat_natCast] at hr
    obtain ⟨i, _, rfl⟩ := List.mem_map.mp hr
    simp
  · intro i j hi hj
    have hiM : i < M := lt_of_lt_of_le hi (min_le_left _ _)
    have hiK : i < K := lt_of_lt_of_le hi (min_le_right _ _)
    have hjM : j < M := lt_of_lt_of_le hj (min_le_left _ _)
    have hjK : j < K := lt_of_lt_of_le hj (min_le_right _ _)
    rw [resizeGrid_getCell K g hK i j hiK hjK]
    rw [if_pos ⟨by rw [hlen]; exact hiM, by rw [hrowD i hiM]; exact hjM⟩]
    rfl
  · intro i j hi hj hout
    rw [resizeGrid_getCell K g hK i j hi hj]
    rcases Nat.lt_or_ge i M with hiM | hiM
    · have hjM : ¬(j < M) := by
        intro hjM
        exact hout ⟨lt_min hiM hi, lt_min hjM hj⟩
      rw [if_neg]
      intro hcontra
      exact hjM (by rw [hrowD i hiM] at hcontra; exact hcontra.2)
    · rw [if_neg]
      intro hcontra
      rw [hlen] at hcontra
      exact absurd hcontra.1 (not_lt.mpr hiM)

/-- Witness for C9: the spec's concrete 5×5 → 3×3 truncation and the
3×3 → 5×5 padding scenario. -/
theorem resize_preserves_overlap_witness :
    ((1 : ℕ) ≤ 3 ∧ exampleGrid5.length = 5 ∧ (∀ r ∈ exampleGrid5, r.length = 5) ∧
      ((resizeGrid ((3 : ℕ) : ℤ) exampleGrid5).length = 3 ∧
       (∀ r ∈ resizeGrid ((3 : ℕ) : ℤ) exampleGrid5, r.length = 3) ∧
       (∀ i j, i < min 5 3 → j < min 5 3 →
         getCell (resizeGrid ((3 : ℕ) : ℤ) exampleGrid5) i j = getCell exampleGrid5 i j) ∧
       (∀ i j, i < 3 → j < 3 → ¬(i < min 5 3 ∧ j < min 5 3) →
         getCell (resizeGrid ((3 : ℕ) : ℤ) exampleGrid5) i j = PixelState.clear))) ∧
    ((1 : ℕ) ≤ 5 ∧ exampleGrid3.length = 3 ∧ (∀ r ∈ exampleGrid3, r.length = 3) ∧
      ((resizeGrid ((5 : ℕ) : ℤ) exampleGrid3).length = 5 ∧
       (∀ r ∈ resizeGrid ((5 : ℕ) : ℤ) exampleGrid3, r.length = 5) ∧
       (∀ i j, i < min 3 5 → j < min 3 5 →
         getCell (resizeGrid ((5 : ℕ) : ℤ) exampleGrid3) i j = getCell exampleGrid3 i j) ∧
       (∀ i j, i < 5 → j < 5 → ¬(i < min 3 5 ∧ j < min 3 5) →
         getCell (resizeGrid ((5 : ℕ) : ℤ) exampleGrid3) i j = PixelState.clear))) :=
  ⟨⟨by decide, by decide, by decide,
     resize_preserves_overlap 5 3 exampleGrid5 (by decide) (by decide) (by decide)⟩,
   ⟨by decide, by decide, by decide,
     resize_preserves_overlap 3 5 exampleGrid3 (by decide) (by decide) (by decide)⟩⟩

/-- C7 counterexample: `updatePixel` invoked on a 3×3 grid with the
out-of-bounds row index 5 raises a `TypeError` instead of silently
no-opping, refuting the claim that out-of-bounds `setCell` never raises an
error. -/
theorem updatePixel_oob_row_raises :
    updatePixel jsGrid3 5 0 PixelState.black =
      Except.error "TypeError: cannot set properties of undefined" := by
  rfl

/-- C7 amended: `updatePixel` performs no bounds check.  With an
out-of-bounds row index the element assignment on `undefined` raises a
`TypeError` (it is not a silent no-op); with in-bounds row and column it
replaces exactly that cell in a fresh copy of the grid. -/
theorem updatePixel_no_bounds_check (g : JsGrid) (row col : ℤ)
    (s : PixelState) :
    (¬(0 ≤ row ∧ row.toNat < g.length) →
      updatePixel g row col s =
        Except.error "TypeError: cannot set properties of undefined") ∧
    (0 ≤ row → row.toNat < g.length → 0 ≤ col →
      col.toNat < (g.getD row.toNat []).length →
      updatePixel g row col s =
        Except.ok (g.set row.toNat
          ((g.getD row.toNat []).set col.toNat (some s)))) := by
  constructor
  · intro h
    unfold updatePixel
    rw [if_neg h]
  · intro h0 h1 h2 h3
    unfold updatePixel
    rw [if_pos ⟨h0, h1⟩]
    unfold jsArrayWrite
    rw [if_neg (not_lt.mpr h2), if_pos h3]

/-- Witness for the amended C7: a negative row raises, an in-bounds
update replaces the cell. -/
theorem updatePixel_no_bounds_check_witness :
    updatePixel jsGrid3 (-1) 0 PixelState.black =
      Except.error "TypeError: cannot set properties of undefined" ∧
    updatePixel jsGrid3 1 2 PixelState.black =
      Except.ok (jsGrid3.set (1 : ℤ).toNat
        ((jsGrid3.getD (1 : ℤ).toNat []).set (2 : ℤ).toNat
          (some PixelState.black))) :=
  ⟨(updatePixel_no_bounds_check jsGrid3 (-1) 0 PixelState.black).1 (by decide),
   (updatePixel_no_bounds_check jsGrid3 1 2 PixelState.black).2
     (by decide) (by decide) (by decide) (by decide)⟩

/-- C8: loading a payload whose version tag is neither 1 nor 2, or a
version-2 payload whose data length fails the integer-square-root check
(`Nat.sqrt L * Nat.sqrt L ≠ L`, i.e. the length is not a perfect square),
produces a thrown-and-caught data error: `parseLoadedData` fails and
`handleFileDrop` leaves the grid and grid size completely unchanged. -/
theorem load_rejects_bad_input (st : DropSt) (v : ℤ) (data : List Char)
    (hns : Nat.sqrt data.length * Nat.sqrt data.length ≠ data.length) :
    (∃ msg, parseLoadedData (LoadedData.other v) = Except.error msg) ∧
    handleFileDrop (LoadedData.other v) st = st ∧
    (∃ msg, parseLoadedData (LoadedData.v2 data) = Except.error msg) ∧
    handleFileDrop (LoadedData.v2 data) st = st := by
  have hv2 : parseLoadedData (LoadedData.v2 data) =
      Except.error "Data length is not a perfect square for version 2 JSON" := by
    simp only [parseLoadedData]
    rw [if_neg hns]
  refine ⟨⟨_, rfl⟩, rfl, ⟨_, hv2⟩, ?_⟩
  unfold handleFileDrop
  rw [hv2]

/-- Witness for C8: version tag 3, and a length-3 payload (3 is not a
perfect square), against a concrete state. -/
theorem load_rejects_bad_input_witness :
    (Nat.sqrt "zzz".data.length * Nat.sqrt "zzz".data.length ≠
      "zzz".data.length) ∧
    ((∃ msg, parseLoadedData (LoadedData.other 3) = Except.error msg) ∧
     handleFileDrop (LoadedData.other 3) ⟨3, exampleGrid3⟩ = ⟨3, exampleGrid3⟩ ∧
     (∃ msg, parseLoadedData (LoadedData.v2 "zzz".data) = Except.error msg) ∧
     handleFileDrop (LoadedData.v2 "zzz".data) ⟨3, exampleGrid3⟩ =
       ⟨3, exampleGrid3⟩) := by
  have hns : Nat.sqrt "zzz".data.length * Nat.sqrt "zzz".data.length ≠
      "zzz".data.length := by
    show Nat.sqrt 3 * Nat.sqrt 3 ≠ 3
    norm_num
  exact ⟨hns, load_rejects_bad_input ⟨3, exampleGrid3⟩ 3 "zzz".data hns⟩

/-- Helper: `saveToHistory` never touches the current grid. -/
theorem saveToHistory_grid (st : AppSt) :
    (saveToHistory st).grid = st.grid := by
  unfold saveToHistory
  by_cases hA : some st.grid =
      (if 0 ≤ st.historyIndex then st.history[st.historyIndex.toNat]? else none)
  · rw [if_pos hA]
  · rw [if_neg hA]
    by_cases hB : 100 <
        (jsSliceTo st.history (st.historyIndex + 1) ++ [st.grid]).length
    · rw [if_pos hB]
    · rw [if_neg hB]

/-- Helper: when the entry at the current (nonnegative) index equals the
current grid, `saveToHistory` is a no-op. -/
theorem saveToHistory_noop (st : AppSt) (h0 : 0 ≤ st.historyIndex)
    (hcur : st.history[st.historyIndex.toNat]? = some st.grid) :
    saveToHistory st = st := by
  unfold saveToHistory
  rw [if_pos h0, hcur, if_pos rfl]

/-- Helper: the length of the truncated history. -/
theorem jsSliceTo_length_of_wf (st : AppSt) (h1 : -1 ≤ st.historyIndex)
    (h2 : st.historyIndex < (st.history.length : ℤ)) :
    (jsSliceTo st.history (st.historyIndex + 1)).length =
      (st.historyIndex + 1).toNat := by
  unfold jsSliceTo
  rw [if_neg (by omega : ¬ st.historyIndex + 1 < 0), List.length_take]
  omega

/-- Helper: after a `saveToHistory` from a well-formed state, the index is
within bounds. -/
theorem saveToHistory_bounds (st : AppSt) (h1 : -1 ≤ st.historyIndex)
    (h2 : st.historyIndex < (st.history.length : ℤ)) :
    0 ≤ (saveToHistory st).historyIndex ∧
    (saveToHistory st).historyIndex < ((saveToHistory st).history.length : ℤ) := by
  have hT := jsSliceTo_length_of_wf st h1 h2
  unfold saveToHistory
  by_cases hA : some st.grid =
      (if 0 ≤ st.historyIndex then st.history[st.historyIndex.toNat]? else none)
  · rw [if_pos hA]
    by_cases h0 : 0 ≤ st.historyIndex
    · exact ⟨h0, h2⟩
    · rw [if_neg h0] at hA
      exact absurd hA (by simp)
  · rw [if_neg hA]
    by_cases hB : 100 <
        (jsSliceTo st.history (st.historyIndex + 1) ++ [st.grid]).length
    · rw [if_pos hB]
      have hdlen :
          (jsSliceFrom
            (jsSliceTo st.history (st.historyIndex + 1) ++ [st.grid]) (-100)).length =
          100 := by
        unfold jsSliceFrom
        rw [if_pos (by norm_num), List.length_drop]
        omega
      constructor
      · simp only [hdlen]; omega
      · simp only [hdlen]; omega
    · rw [if_neg hB]
      simp only [List.length_append, List.length_cons, List.length_nil, hT]
      omega

/-- Helper: after a `saveToHistory` from a well-formed state, the index
points at an entry equal to the pushed grid. -/
theorem saveToHistory_points (st : AppSt) (h1 : -1 ≤ st.historyIndex)
    (h2 : st.historyIndex < (st.history.length : ℤ)) :
    (saveToHistory st).history[(saveToHistory st).historyIndex.toNat]? =
      some st.grid := by
  have hT := jsSliceTo_length_of_wf st h1 h2
  unfold saveToHistory
  by_cases hA : some st.grid =
      (if 0 ≤ st.historyIndex then st.history[st.historyIndex.toNat]? else none)
  · rw [if_pos hA]
    by_cases h0 : 0 ≤ st.historyIndex
    · rw [if_pos h0] at hA
      exact hA.symm
    · rw [if_neg h0] at hA
      exact absurd hA (by simp)
  · rw [if_neg hA]
    by_cases hB : 100 <
        (jsSliceTo st.history (st.historyIndex + 1) ++ [st.grid]).length
    · rw [if_pos hB]
      have hdrop : jsSliceFrom
          (jsSliceTo st.history (st.historyIndex + 1) ++ [st.grid]) (-100) =
          (jsSliceTo st.history (st.historyIndex + 1) ++ [st.grid]).drop
            ((jsSliceTo st.history (st.historyIndex + 1) ++ [st.grid]).length - 100) := by
        unfold jsSliceFrom
        rw [if_pos (by norm_num)]
        congr 1
        omega
      simp only [hdrop, List.length_drop]
      have hlen : (jsSliceTo st.history (st.historyIndex + 1) ++ [st.grid]).length =
          (jsSliceTo st.history (st.historyIndex + 1)).length + 1 := by simp
      have htn : ((((jsSliceTo st.history (st.historyIndex + 1) ++ [st.grid]).length -
          ((jsSliceTo st.history (st.historyIndex + 1) ++ [st.grid]).length - 100) : ℕ) : ℤ)
          - 1).toNat = 99 := by omega
      rw [htn, List.getElem?_drop]
      have harith : (jsSliceTo st.history (st.historyIndex + 1) ++ [st.grid]).length
          - 100 + 99 = (jsSliceTo st.history (st.historyIndex + 1)).length := by
        omega
      rw [harith, List.getElem?_append_right (le_refl _)]
      simp
    · rw [if_neg hB]
      have htn : (st.historyIndex + 1).toNat =
          (jsSliceTo st.history (st.historyIndex + 1)).length := hT.symm
      simp only [htn, List.getElem?_append_right (le_refl _)]
      simp

/-- Helper: `saveToHistory` keeps the entry count at or below 100. -/
theorem saveToHistory_length_le (st : AppSt)
    (h : st.history.length ≤ 100) :
    (saveToHistory st).history.length ≤ 100 := by
  unfold saveToHistory
  by_cases hA : some st.grid =
      (if 0 ≤ st.historyIndex then st.history[st.historyIndex.toNat]? else none)
  · rw [if_pos hA]
    exact h
  · rw [if_neg hA]
    by_cases hB : 100 <
        (jsSliceTo st.history (st.historyIndex + 1) ++ [st.grid]).length
    · rw [if_pos hB]
      unfold jsSliceFrom
      rw [if_pos (by norm_num), List.length_drop]
      omega
    · rw [if_neg hB]
      show (jsSliceTo st.history (st.historyIndex + 1) ++ [st.grid]).length ≤ 100
      omega

/-- Helper: capacity is preserved along any sequence of pushes. -/
theorem pushAll_length_le (gs : List Grid) (st : AppSt)
    (h : st.history.length ≤ 100) :
    (pushAll gs st).history.length ≤ 100 := by
  induction gs generalizing st with
  | nil => exact h
  | cons g gs ih =>
      exact ih (saveToHistory { st with grid := g })
        (saveToHistory_length_le { st with grid := g } h)

/-- C3: if `saveToHistory` runs while the entry at the current index is
content-equal to the current grid, it is a no-op, and consequently pushing
the same snapshot twice in a row from a well-formed state stores it only
once (the second push changes nothing). -/
theorem push_dedup_idempotent (st : AppSt) :
    (∀ (h0 : 0 ≤ st.historyIndex)
       (hcur : st.history[st.historyIndex.toNat]? = some st.grid),
       saveToHistory st = st) ∧
    (-1 ≤ st.historyIndex → st.historyIndex < (st.history.length : ℤ) →
       saveToHistory (saveToHistory st) = saveToHistory st) := by
  constructor
  · exact fun h0 hcur => saveToHistory_noop st h0 hcur
  · intro hl hh
    have hb := saveToHistory_bounds st hl hh
    have hp := saveToHistory_points st hl hh
    have hg := saveToHistory_grid st
    exact saveToHistory_noop _ hb.1 (by rw [hg]; exact hp)

/-- Witness for C3 at a concrete state. -/
theorem push_dedup_idempotent_witness :
    ((0 : ℤ) ≤ histSt0.historyIndex ∧
      histSt0.history[histSt0.historyIndex.toNat]? = some histSt0.grid ∧
      saveToHistory histSt0 = histSt0) ∧
    ((-1 : ℤ) ≤ histSt0.historyIndex ∧
      histSt0.historyIndex < (histSt0.history.length : ℤ) ∧
      saveToHistory (saveToHistory histSt0) = saveToHistory histSt0) :=
  ⟨⟨by decide, by decide,
    (push_dedup_idempotent histSt0).1 (by decide) (by decide)⟩,
   ⟨by decide, by decide,
    (push_dedup_idempotent histSt0).2 (by decide) (by decide)⟩⟩

/-- C4: (1) from any state within capacity, any sequence of pushes keeps
the stored entry count at or below 100; (2) when a push overflows the
capacity, the retained history is the appended list with its front
evicted, and the index still points at the just-pushed entry; (3) from any
well-formed state a push leaves the index pointing at the pushed snapshot;
(4) `undo` only decrements a positive index (it never moves the index
below 0, the oldest retained entry). -/
theorem history_capacity_undo (st : AppSt) (gs : List Grid) :
    (st.history.length ≤ 100 → (pushAll gs st).history.length ≤ 100) ∧
    (some st.grid ≠
        (if 0 ≤ st.historyIndex then st.history[st.historyIndex.toNat]? else none) →
     100 < (jsSliceTo st.history (st.historyIndex + 1) ++ [st.grid]).length →
     (saveToHistory st).history =
       (jsSliceTo st.history (st.historyIndex + 1) ++ [st.grid]).drop
         ((jsSliceTo st.history (st.historyIndex + 1) ++ [st.grid]).length - 100)) ∧
    (-1 ≤ st.historyIndex → st.historyIndex < (st.history.length : ℤ) →
     (saveToHistory st).history[(saveToHistory st).historyIndex.toNat]? =
       some st.grid) ∧
    (0 ≤ st.historyIndex → 0 ≤ (undo st).historyIndex) ∧
    ((undo st).historyIndex =
      if 0 < st.historyIndex then st.historyIndex - 1 else st.historyIndex) := by
  refine ⟨fun h => pushAll_length_le gs st h, ?_, saveToHistory_points st, ?_, ?_⟩
  · intro hA hB
    unfold saveToHistory
    rw [if_neg (fun h => hA h), if_pos hB]
    unfold jsSliceFrom
    rw [if_pos (by norm_num)]
    simp only []
    congr 1
    omega
  · intro h0
    unfold undo
    by_cases hpos : 0 < st.historyIndex
    · rw [if_pos hpos]
      simp only []
      omega
    · rw [if_neg hpos]
      exact h0
  · unfold undo
    by_cases hpos : 0 < st.historyIndex
    · rw [if_pos hpos, if_pos hpos]
    · rw [if_neg hpos, if_neg hpos]

/-- Witness for C4: capacity bound after concrete pushes, overflow
eviction on a concrete 101-entry state, pointing at the pushed entry, and
`undo` at a concrete positive index. -/
theorem history_capacity_undo_witness :
    (histSt0.history.length ≤ 100 ∧
      (pushAll [[[PixelState.topLeft]], [[PixelState.clear]]] histSt0).history.length ≤ 100) ∧
    (some histStBig.grid ≠
        (if 0 ≤ histStBig.historyIndex then
          histStBig.history[histStBig.historyIndex.toNat]? else none) ∧
      100 < (jsSliceTo histStBig.history (histStBig.historyIndex + 1) ++ [histStBig.grid]).length ∧
      (saveToHistory histStBig).history =
        (jsSliceTo histStBig.history (histStBig.historyIndex + 1) ++ [histStBig.grid]).drop
          ((jsSliceTo histStBig.history (histStBig.historyIndex + 1) ++ [histStBig.grid]).length - 100)) ∧
    ((-1 : ℤ) ≤ histStBig.historyIndex ∧
      histStBig.historyIndex < (histStBig.history.length : ℤ) ∧
      (saveToHistory histStBig).history[(saveToHistory histStBig).historyIndex.toNat]? =
        some histStBig.grid) ∧
    ((0 : ℤ) ≤ histStBig.historyIndex ∧ 0 ≤ (undo histStBig).historyIndex) ∧
    ((undo histStBig).historyIndex =
      if 0 < histStBig.historyIndex then histStBig.historyIndex - 1
      else histStBig.historyIndex) :=
  ⟨⟨by decide,
    (history_capacity_undo histSt0
      [[[PixelState.topLeft]], [[PixelState.clear]]]).1 (by decide)⟩,
   ⟨by decide, by decide,
    (history_capacity_undo histStBig []).2.1 (by decide) (by decide)⟩,
   ⟨by decide, by decide,
    (history_capacity_undo histStBig []).2.2.1 (by decide) (by decide)⟩,
   ⟨by decide,
    (history_capacity_undo histStBig []).2.2.2.1 (by decide)⟩,
   (history_capacity_undo histStBig []).2.2.2.2⟩

/-- C1: for a positive cell size the resolver returns `none` exactly when
`floor(x/s)` or `floor(y/s)` leaves `[0, N-1]`; otherwise it returns
`row = floor(y/s)`, `col = floor(x/s)` and exactly one of the five
regions, characterized by the strict threshold comparisons on the
fractional in-cell position, with every exact 0.5/1.5 tie classified
`center`. -/
theorem getMousePosition_spec (x y s : ℚ) (N : ℕ) (hs : 0 < s) :
    (getMousePosition x y s N = none ↔
      (⌊x / s⌋ < 0 ∨ (N : ℤ) ≤ ⌊x / s⌋ ∨ ⌊y / s⌋ < 0 ∨ (N : ℤ) ≤ ⌊y / s⌋)) ∧
    (0 ≤ ⌊x / s⌋ → ⌊x / s⌋ < (N : ℤ) → 0 ≤ ⌊y / s⌋ → ⌊y / s⌋ < (N : ℤ) →
      ∃ reg, getMousePosition x y s N = some (⌊y / s⌋, ⌊x / s⌋, reg) ∧
        (reg = HoverRegion.topLeft ↔
          Int.fract (x / s) + Int.fract (y / s) < 1/2) ∧
        (reg = HoverRegion.bottomRight ↔
          3/2 < Int.fract (x / s) + Int.fract (y / s)) ∧
        (reg = HoverRegion.topRight ↔
          1/2 < Int.fract (x / s) - Int.fract (y / s)) ∧
        (reg = HoverRegion.bottomLeft ↔
          1/2 < Int.fract (y / s) - Int.fract (x / s)) ∧
        (reg = HoverRegion.center ↔
          (¬(Int.fract (x / s) + Int.fract (y / s) < 1/2) ∧
           ¬(3/2 < Int.fract (x / s) + Int.fract (y / s)) ∧
           ¬(1/2 < Int.fract (x / s) - Int.fract (y / s)) ∧
           ¬(1/2 < Int.fract (y / s) - Int.fract (x / s)))) ∧
        ((Int.fract (x / s) + Int.fract (y / s) = 1/2 ∨
          Int.fract (x / s) + Int.fract (y / s) = 3/2 ∨
          Int.fract (x / s) - Int.fract (y / s) = 1/2 ∨
          Int.fract (y / s) - Int.fract (x / s) = 1/2) →
          reg = HoverRegion.center)) := by
  have hs' : s ≠ 0 := ne_of_gt hs
  constructor
  · unfold getMousePosition
    by_cases hC : (⌊x / s⌋ < 0 ∨ (N : ℤ) ≤ ⌊x / s⌋ ∨
        ⌊y / s⌋ < 0 ∨ (N : ℤ) ≤ ⌊y / s⌋)
    · rw [if_pos hC]
      simp [hC]
    · rw [if_neg hC]
      simp [hC]
  · intro h1 h2 h3 h4
    have hC : ¬(⌊x / s⌋ < 0 ∨ (N : ℤ) ≤ ⌊x / s⌋ ∨
        ⌊y / s⌋ < 0 ∨ (N : ℤ) ≤ ⌊y / s⌋) := by
      intro h
      rcases h with h | h | h | h <;> omega
    have hx0 : 0 ≤ x / s := Int.floor_nonneg.mp h1
    have hy0 : 0 ≤ y / s := Int.floor_nonneg.mp h3
    have hcx : jsMod x s / s = Int.fract (x / s) := by
      unfold jsMod ratTrunc
      rw [if_pos hx0]
      have hexp : (x - s * (⌊x / s⌋ : ℚ)) / s = x / s - ⌊x / s⌋ := by
        field_simp
      rw [hexp]
      rfl
    have hcy : jsMod y s / s = Int.fract (y / s) := by
      unfold jsMod ratTrunc
      rw [if_pos hy0]
      have hexp : (y - s * (⌊y / s⌋ : ℚ)) / s = y / s - ⌊y / s⌋ := by
        field_simp
      rw [hexp]
      rfl
    have hfx0 : 0 ≤ Int.fract (x / s) := Int.fract_nonneg (x / s)
    have hfx1 : Int.fract (x / s) < 1 := Int.fract_lt_one (x / s)
    have hfy0 : 0 ≤ Int.fract (y / s) := Int.fract_nonneg (y / s)
    have hfy1 : Int.fract (y / s) < 1 := Int.fract_lt_one (y / s)
    have hmain : getMousePosition x y s N = some (⌊y / s⌋, ⌊x / s⌋,
        if Int.fract (x / s) + Int.fract (y / s) < 1/2 then
          HoverRegion.topLeft
        else if 3/2 < Int.fract (x / s) + Int.fract (y / s) then
          HoverRegion.bottomRight
        else if 1/2 < Int.fract (x / s) - Int.fract (y / s) then
          HoverRegion.topRight
        else if 1/2 < Int.fract (y / s) - Int.fract (x / s) then
          HoverRegion.bottomLeft
        else HoverRegion.center) := by
      unfold getMousePosition
      rw [if_neg hC, hcx, hcy]
    by_cases c1 : Int.fract (x / s) + Int.fract (y / s) < 1/2
    · refine ⟨HoverRegion.topLeft, ?_, iff_of_true rfl c1,
        iff_of_false (by simp) (by linarith),
        iff_of_false (by simp) (by linarith),
        iff_of_false (by simp) (by linarith),
        iff_of_false (by simp) (fun h => h.1 c1), ?_⟩
      · rw [hmain, if_pos c1]
      · rintro (ht | ht | ht | ht) <;> (exfalso; linarith)
    by_cases c2 : 3/2 < Int.fract (x / s) + Int.fract (y / s)
    · refine ⟨HoverRegion.bottomRight, ?_, iff_of_false (by simp) c1,
        iff_of_true rfl c2,
        iff_of_false (by simp) (by linarith),
        iff_of_false (by simp) (by linarith),
        iff_of_false (by simp) (fun h => h.2.1 c2), ?_⟩
      · rw [hmain, if_neg c1, if_pos c2]
      · rintro (ht | ht | ht | ht) <;> (exfalso; linarith)
    by_cases c3 : 1/2 < Int.fract (x / s) - Int.fract (y / s)
    · refine ⟨HoverRegion.topRight, ?_, iff_of_false (by simp) c1,
        iff_of_false (by simp) c2,
        iff_of_true rfl c3,
        iff_of_false (by simp) (by linarith),
        iff_of_false (by simp) (fun h => h.2.2.1 c3), ?_⟩
      · rw [hmain, if_neg c1, if_neg c2, if_pos c3]
      · rintro (ht | ht | ht | ht) <;> (exfalso; linarith)
    by_cases c4 : 1/2 < Int.fract (y / s) - Int.fract (x / s)
    · refine ⟨HoverRegion.bottomLeft, ?_, iff_of_false (by simp) c1,
        iff_of_false (by simp) c2,
        iff_of_false (by simp) c3,
        iff_of_true rfl c4,
        iff_of_false (by simp) (fun h => h.2.2.2 c4), ?_⟩
      · rw [hmain, if_neg c1, if_neg c2, if_neg c3, if_pos c4]
      · rintro (ht | ht | ht | ht) <;> (exfalso; linarith)
    · refine ⟨HoverRegion.center, ?_, iff_of_false (by simp) c1,
        iff_of_false (by simp) c2,
        iff_of_false (by simp) c3,
        iff_of_false (by simp) c4,
        iff_of_true rfl ⟨c1, c2, c3, c4⟩, fun _ => rfl⟩
      rw [hmain, if_neg c1, if_neg c2, if_neg c3, if_neg c4]

/-- Helper: the head of a list is a member. -/
theorem head?_mem {α : Type} {l : List α} {a : α} (h : l.head? = some a) :
    a ∈ l := by
  cases l with
  | nil => simp at h
  | cons b t =>
      simp only [List.head?_cons, Option.some.injEq] at h
      simp [h]

/-- Helper: the last element of a list is a member. -/
theorem lastElem_mem {α : Type} {l : List α} {a : α}
    (h : l.getLast? = some a) : a ∈ l :=
  List.mem_of_mem_getLast? (by simp [h])

/-- Helper: in a duplicate-free list every member occurs exactly once. -/
theorem count_one_of_nodup_mem {l : List (ℤ × ℤ)} {a : ℤ × ℤ}
    (hd : l.Nodup) (hm : a ∈ l) : l.count a = 1 := by
  induction l with
  | nil => simp at hm
  | cons b t ih =>
      rw [List.nodup_cons] at hd
      rcases List.mem_cons.mp hm with rfl | hm'
      · rw [List.count_cons_self, List.count_eq_zero.mpr hd.1]
      · have hne : a ≠ b := by
          intro h
          exact hd.1 (h ▸ hm')
        rw [List.count_cons_of_ne hne t]
        exact ih hd.2 hm'

/-- Helper: the main invariant of the Bresenham loop.  With `u, v` the
remaining signed distances to the end point and
`err = dx - dy + u*dy - v*dx`, the loop yields a list that starts at the
current cell, ends at the end cell, moves by at most one cell per axis per
step, only visits cells between the current one and the end, and never
revisits a cell. -/
theorem bresenhamGo_spec (x1 y1 dx dy sx sy : ℤ)
    (hsx : sx = 1 ∨ sx = -1) (hsy : sy = 1 ∨ sy = -1) :
    ∀ (n : ℕ) (x0 y0 err u v : ℤ),
      u = sx * (x1 - x0) → v = sy * (y1 - y0) →
      0 ≤ u → u ≤ dx → 0 ≤ v → v ≤ dy →
      err = dx - dy + u * dy - v * dx →
      u + v < (n : ℤ) →
      (bresenhamGo x1 y1 dx dy sx sy n x0 y0 err).head? = some (x0, y0) ∧
      (bresenhamGo x1 y1 dx dy sx sy n x0 y0 err).getLast? = some (x1, y1) ∧
      List.Chain' (fun p q => |q.1 - p.1| ≤ 1 ∧ |q.2 - p.2| ≤ 1)
        (bresenhamGo x1 y1 dx dy sx sy n x0 y0 err) ∧
      (∀ p ∈ bresenhamGo x1 y1 dx dy sx sy n x0 y0 err,
        0 ≤ sx * (x1 - p.1) ∧ 0 ≤ sy * (y1 - p.2) ∧
        sx * (x1 - p.1) + sy * (y1 - p.2) ≤ u + v) ∧
      (bresenhamGo x1 y1 dx dy sx sy n x0 y0 err).Nodup := by
  intro n
  induction n with
  | zero =>
      intro x0 y0 err u v hu hv hu0 hud hv0 hvd herr hn
      exfalso
      omega
  | succ n ih =>
      intro x0 y0 err u v hu hv hu0 hud hv0 hvd herr hn
      by_cases hend : x0 = x1 ∧ y0 = y1
      · have hlist : bresenhamGo x1 y1 dx dy sx sy (n + 1) x0 y0 err
            = [(x0, y0)] := by
          simp only [bresenhamGo]
          rw [if_pos hend]
        obtain ⟨hx, hy⟩ := hend
        rw [hlist]
        refine ⟨rfl, by simp [hx, hy], List.chain'_singleton _, ?_,
          List.nodup_singleton _⟩
        intro p hp
        simp only [List.mem_singleton] at hp
        subst hp
        refine ⟨by rw [← hx]; simp, by rw [← hy]; simp, ?_⟩
        rw [← hx, ← hy]
        simp only [sub_self, mul_zero, add_zero]
        omega
      · have hdx0 : 0 ≤ dx := le_trans hu0 hud
        have hdy0 : 0 ≤ dy := le_trans hv0 hvd
        have hor : 0 < u ∨ 0 < v := by
          by_contra hcon
          push_neg at hcon
          apply hend
          have hu00 : u = 0 := le_antisymm hcon.1 hu0
          have hv00 : v = 0 := le_antisymm hcon.2 hv0
          rw [hu00] at hu
          rw [hv00] at hv
          constructor
          · rcases hsx with rfl | rfl <;> omega
          · rcases hsy with rfl | rfl <;> omega
        have hupos : -dy < 2 * err → 0 < u := by
          intro hc1
          by_contra hule
          push_neg at hule
          have hu00 : u = 0 := le_antisymm hule hu0
          have hvpos : 0 < v := by
            rcases hor with h | h
            · omega
            · exact h
          have herr0 : err = dx - dy - v * dx := by rw [herr, hu00]; ring
          have haux : 0 ≤ dx * (v - 1) := mul_nonneg hdx0 (by omega)
          rw [herr0] at hc1
          nlinarith
        have hvpos : 2 * err < dx → 0 < v := by
          intro hc2
          by_contra hvle
          push_neg at hvle
          have hv00 : v = 0 := le_antisymm hvle hv0
          have hupos' : 0 < u := by
            rcases hor with h | h
            · exact h
            · omega
          have herr0 : err = dx - dy + u * dy := by rw [herr, hv00]; ring
          have haux : 0 ≤ dy * (u - 1) := mul_nonneg hdy0 (by omega)
          rw [herr0] at hc2
          nlinarith
        have hstep : (-dy < 2 * err) ∨ (2 * err < dx) := by
          by_contra hcon
          push_neg at hcon
          obtain ⟨hA, hB⟩ := hcon
          rcases hor with h | h <;> omega
        have pu : (if -dy < 2 * err then u - 1 else u) =
            sx * (x1 - (if -dy < 2 * err then x0 + sx else x0)) := by
          by_cases hc1 : -dy < 2 * err
          · rw [if_pos hc1, if_pos hc1]
            rcases hsx with rfl | rfl <;> omega
          · rw [if_neg hc1, if_neg hc1]
            exact hu
        have pv : (if 2 * err < dx then v - 1 else v) =
            sy * (y1 - (if 2 * err < dx then y0 + sy else y0)) := by
          by_cases hc2 : 2 * err < dx
          · rw [if_pos hc2, if_pos hc2]
            rcases hsy with rfl | rfl <;> omega
          · rw [if_neg hc2, if_neg hc2]
            exact hv
        have p0 : 0 ≤ (if -dy < 2 * err then u - 1 else u) := by
          by_cases hc1 : -dy < 2 * err
          · rw [if_pos hc1]
            have := hupos hc1
            omega
          · rw [if_neg hc1]
            exact hu0
        have pd : (if -dy < 2 * err then u - 1 else u) ≤ dx := by
          by_cases hc1 : -dy < 2 * err <;> simp [hc1] <;> omega
        have q0 : 0 ≤ (if 2 * err < dx then v - 1 else v) := by
          by_cases hc2 : 2 * err < dx
          · rw [if_pos hc2]
            have := hvpos hc2
            omega
          · rw [if_neg hc2]
            exact hv0
        have qd : (if 2 * err < dx then v - 1 else v) ≤ dy := by
          by_cases hc2 : 2 * err < dx <;> simp [hc2] <;> omega
        have perr : (if -dy < 2 * err then err - dy else err) +
              (if 2 * err < dx then dx else 0) =
            dx - dy + (if -dy < 2 * err then u - 1 else u) * dy -
              (if 2 * err < dx then v - 1 else v) * dx := by
          by_cases hc1 : -dy < 2 * err <;> by_cases hc2 : 2 * err < dx <;>
            simp only [hc1, hc2, if_true, if_false] <;>
            (rw [herr]; ring)
        have hsum : (if -dy < 2 * err then u - 1 else u) +
            (if 2 * err < dx then v - 1 else v) ≤ u + v - 1 := by
          rcases hstep with h | h
          · by_cases hc2 : 2 * err < dx <;> simp [h, hc2] <;> omega
          · by_cases hc1 : -dy < 2 * err <;> simp [h, hc1] <;> omega
        have pn : (if -dy < 2 * err then u - 1 else u) +
            (if 2 * err < dx then v - 1 else v) < (n : ℤ) := by
          have hcast : ((n + 1 : ℕ) : ℤ) = (n : ℤ) + 1 := by push_cast; ring
          rw [hcast] at hn
          omega
        obtain ⟨ihead, ilast, ichain, imem, inodup⟩ :=
          ih (if -dy < 2 * err then x0 + sx else x0)
             (if 2 * err < dx then y0 + sy else y0)
             ((if -dy < 2 * err then err - dy else err) +
              (if 2 * err < dx then dx else 0))
             (if -dy < 2 * err then u - 1 else u)
             (if 2 * err < dx then v - 1 else v)
             pu pv p0 pd q0 qd perr pn
        have hgoal : bresenhamGo x1 y1 dx dy sx sy (n + 1) x0 y0 err =
            (x0, y0) :: bresenhamGo x1 y1 dx dy sx sy n
              (if -dy < 2 * err then x0 + sx else x0)
              (if 2 * err < dx then y0 + sy else y0)
              ((if -dy < 2 * err then err - dy else err) +
               (if 2 * err < dx then dx else 0)) := by
          simp only [bresenhamGo]
          rw [if_neg hend]
        have hstepx : |(if -dy < 2 * err then x0 + sx else x0) - x0| ≤ 1 := by
          by_cases hc1 : -dy < 2 * err
          · rw [if_pos hc1, show x0 + sx - x0 = sx by ring]
            rcases hsx with rfl | rfl <;> norm_num
          · rw [if_neg hc1]
            simp
        have hstepy : |(if 2 * err < dx then y0 + sy else y0) - y0| ≤ 1 := by
          by_cases hc2 : 2 * err < dx
          · rw [if_pos hc2, show y0 + sy - y0 = sy by ring]
            rcases hsy with rfl | rfl <;> norm_num
          · rw [if_neg hc2]
            simp
        rw [hgoal]
        cases hLc : bresenhamGo x1 y1 dx dy sx sy n
            (if -dy < 2 * err then x0 + sx else x0)
            (if 2 * err < dx then y0 + sy else y0)
            ((if -dy < 2 * err then err - dy else err) +
             (if 2 * err < dx then dx else 0)) with
        | nil =>
            rw [hLc] at ihead
            simp at ihead
        | cons b t =>
            rw [hLc] at ihead ilast ichain imem inodup
            have hb : b = ((if -dy < 2 * err then x0 + sx else x0),
                (if 2 * err < dx then y0 + sy else y0)) := by
              simpa using ihead
            refine ⟨rfl, ?_, ?_, ?_, ?_⟩
            · rw [List.getLast?_cons_cons]
              exact ilast
            · rw [List.chain'_cons]
              refine ⟨?_, ichain⟩
              rw [hb]
              exact ⟨hstepx, hstepy⟩
            · intro p hp
              rcases List.mem_cons.mp hp with rfl | hp'
              · refine ⟨?_, ?_, ?_⟩
                · show 0 ≤ sx * (x1 - x0)
                  rw [← hu]
                  exact hu0
                · show 0 ≤ sy * (y1 - y0)
                  rw [← hv]
                  exact hv0
                · show sx * (x1 - x0) + sy * (y1 - y0) ≤ u + v
                  rw [← hu, ← hv]
              · obtain ⟨ha, hb', hc'⟩ := imem p hp'
                exact ⟨ha, hb', le_trans hc' (by linarith)⟩
            · rw [List.nodup_cons]
              refine ⟨?_, inodup⟩
              intro hmem
              have hle := (imem _ hmem).2.2
              have hle' : sx * (x1 - x0) + sy * (y1 - y0) ≤
                  (if -dy < 2 * err then u - 1 else u) +
                  (if 2 * err < dx then v - 1 else v) := hle
              rw [← hu, ← hv] at hle'
              linarith

/-- C2: the line rasterizer output begins with the start cell, ends with
the end cell, contains each endpoint exactly once (a single cell when
start = end), and every consecutive pair differs by at most 1 in each
axis (8-connectivity).  Determinism is immediate: `bresenhamLine` is a
pure function of its arguments. -/
theorem bresenhamLine_spec (x0 y0 x1 y1 : ℤ) :
    (bresenhamLine x0 y0 x1 y1).head? = some (x0, y0) ∧
    (bresenhamLine x0 y0 x1 y1).getLast? = some (x1, y1) ∧
    (bresenhamLine x0 y0 x1 y1).count (x0, y0) = 1 ∧
    (bresenhamLine x0 y0 x1 y1).count (x1, y1) = 1 ∧
    List.Chain' (fun p q => |q.1 - p.1| ≤ 1 ∧ |q.2 - p.2| ≤ 1)
      (bresenhamLine x0 y0 x1 y1) ∧
    (x0 = x1 ∧ y0 = y1 → bresenhamLine x0 y0 x1 y1 = [(x0, y0)]) := by
  have hsx : (if x0 < x1 then (1 : ℤ) else -1) = 1 ∨
      (if x0 < x1 then (1 : ℤ) else -1) = -1 := by
    by_cases h : x0 < x1 <;> simp [h]
  have hsy : (if y0 < y1 then (1 : ℤ) else -1) = 1 ∨
      (if y0 < y1 then (1 : ℤ) else -1) = -1 := by
    by_cases h : y0 < y1 <;> simp [h]
  have hu : |x1 - x0| = (if x0 < x1 then (1 : ℤ) else -1) * (x1 - x0) := by
    by_cases h : x0 < x1
    · rw [if_pos h, one_mul, abs_of_nonneg (by omega)]
    · rw [if_neg h, abs_of_nonpos (by omega)]
      ring
  have hv : |y1 - y0| = (if y0 < y1 then (1 : ℤ) else -1) * (y1 - y0) := by
    by_cases h : y0 < y1
    · rw [if_pos h, one_mul, abs_of_nonneg (by omega)]
    · rw [if_neg h, abs_of_nonpos (by omega)]
      ring
  obtain ⟨hh, hl, hc, hm, hn⟩ :=
    bresenhamGo_spec x1 y1 |x1 - x0| |y1 - y0|
      (if x0 < x1 then (1 : ℤ) else -1) (if y0 < y1 then (1 : ℤ) else -1)
      hsx hsy
      ((|x1 - x0| + |y1 - y0|).toNat + 1) x0 y0 (|x1 - x0| - |y1 - y0|)
      |x1 - x0| |y1 - y0| hu hv (abs_nonneg _) le_rfl (abs_nonneg _) le_rfl
      (by ring) (by omega)
  have hBL : bresenhamLine x0 y0 x1 y1 = bresenhamGo x1 y1 |x1 - x0| |y1 - y0|
      (if x0 < x1 then (1 : ℤ) else -1) (if y0 < y1 then (1 : ℤ) else -1)
      ((|x1 - x0| + |y1 - y0|).toNat + 1) x0 y0 (|x1 - x0| - |y1 - y0|) := rfl
  rw [hBL]
  refine ⟨hh, hl, ?_, ?_, hc, ?_⟩
  · exact count_one_of_nodup_mem hn (head?_mem hh)
  · exact count_one_of_nodup_mem hn (lastElem_mem hl)
  · rintro ⟨rfl, rfl⟩
    simp [bresenhamGo]

/-- Witness for C2: the degenerate-segment hypothesis of the final
conjunct discharged at a concrete equal pair of cells. -/
theorem bresenhamLine_spec_witness :
    bresenhamLine 2 5 2 5 = [(2, 5)] :=
  (bresenhamLine_spec 2 5 2 5).2.2.2.2.2 ⟨rfl, rfl⟩

/-- Witness for C1 at the concrete input `x = 1`, `y = 4`, `s = 10`,
`N = 26`: the in-cell position is `(0.1, 0.4)`, an exact `fx + fy = 0.5`
tie, classified `center`. -/
theorem getMousePosition_spec_witness :
    (0 : ℚ) < 10 ∧
    (0 : ℤ) ≤ ⌊(1 : ℚ) / 10⌋ ∧ ⌊(1 : ℚ) / 10⌋ < ((26 : ℕ) : ℤ) ∧
    (0 : ℤ) ≤ ⌊(4 : ℚ) / 10⌋ ∧ ⌊(4 : ℚ) / 10⌋ < ((26 : ℕ) : ℤ) ∧
    (∃ reg, getMousePosition 1 4 10 26 =
        some (⌊(4 : ℚ) / 10⌋, ⌊(1 : ℚ) / 10⌋, reg) ∧
      (reg = HoverRegion.topLeft ↔
        Int.fract ((1 : ℚ) / 10) + Int.fract ((4 : ℚ) / 10) < 1/2) ∧
      (reg = HoverRegion.bottomRight ↔
        3/2 < Int.fract ((1 : ℚ) / 10) + Int.fract ((4 : ℚ) / 10)) ∧
      (reg = HoverRegion.topRight ↔
        1/2 < Int.fract ((1 : ℚ) / 10) - Int.fract ((4 : ℚ) / 10)) ∧
      (reg = HoverRegion.bottomLeft ↔
        1/2 < Int.fract ((4 : ℚ) / 10) - Int.fract ((1 : ℚ) / 10)) ∧
      (reg = HoverRegion.center ↔
        (¬(Int.fract ((1 : ℚ) / 10) + Int.fract ((4 : ℚ) / 10) < 1/2) ∧
         ¬(3/2 < Int.fract ((1 : ℚ) / 10) + Int.fract ((4 : ℚ) / 10)) ∧
         ¬(1/2 < Int.fract ((1 : ℚ) / 10) - Int.fract ((4 : ℚ) / 10)) ∧
         ¬(1/2 < Int.fract ((4 : ℚ) / 10) - Int.fract ((1 : ℚ) / 10)))) ∧
      ((Int.fract ((1 : ℚ) / 10) + Int.fract ((4 : ℚ) / 10) = 1/2 ∨
        Int.fract ((1 : ℚ) / 10) + Int.fract ((4 : ℚ) / 10) = 3/2 ∨
        Int.fract ((1 : ℚ) / 10) - Int.fract ((4 : ℚ) / 10) = 1/2 ∨
        Int.fract ((4 : ℚ) / 10) - Int.fract ((1 : ℚ) / 10) = 1/2) →
        reg = HoverRegion.center)) := by
  have hfloor1 : ⌊(1 : ℚ) / 10⌋ = 0 := by
    rw [Int.floor_eq_iff] <;> norm_num
  have hfloor4 : ⌊(4 : ℚ) / 10⌋ = 0 := by
    rw [Int.floor_eq_iff] <;> norm_num
  refine ⟨by norm_num, by rw [hfloor1], by rw [hfloor1]; norm_num,
    by rw [hfloor4], by rw [hfloor4]; norm_num, ?_⟩
  exact (getMousePosition_spec 1 4 10 26 (by norm_num)).2
    (by rw [hfloor1]) (by rw [hfloor1]; norm_num)
    (by rw [hfloor4]) (by rw [hfloor4]; norm_num)

end Tricon
